import Mathlib

/-!
Shallow embedding of the command-parsing and command-execution logic of the
`issue_comment.created` handler in `src/index.ts` of the om-github-agent
repository.  Strings are embedded as `List Char` (one element per code
point; all inputs of interest are in the Basic Multilingual Plane, where
JavaScript UTF-16 indices coincide with code-point indices).

The handler (src/index.ts, lines 68-145) does, in order:
  1. `mentionRegex = new RegExp("@" + appName + " create-pr", "i")` and
     tests it against the comment body; on no match nothing happens.
  2. `commandPart = commentBody.substring(match.index + match[0].length).trim()`
  3. `commandRegex = /(\S+)\s+(\S+)(?:\s+\"([^\"]+)\")?/` matched against
     `commandPart`; a null match (the `parts.length >= 3` test is always
     true for a non-null match of a 3-group regex) posts the usage comment.
  4. `sourceBranch = parts[1]`, `targetBranch = parts[2]`,
     `prTitle = parts[3] || commandPart.substring(parts[0].indexOf(parts[2]) + parts[2].length).trim()`
  5. an empty field posts the usage comment; otherwise `getBranch`,
     `pulls.create`, and a success comment are issued sequentially, with a
     catch block posting a single classified failure comment.

Every definition below is translated from that source; the two
spec-side definitions (`specTrailingTitle`, `tokenCount`) follow the
wording of the specification and are clearly marked.
-/

/-- The character class of the JavaScript regex `\s` (and of
`String.prototype.trim`): ASCII whitespace plus the Unicode space
separators recognised by ECMAScript. -/
def jsSpace (c : Char) : Bool :=
  c == ' ' || c == '\t' || c == '\n' || c == '\r' ||
  c.toNat == 0x0b || c.toNat == 0x0c ||
  c.toNat == 0xa0 || c.toNat == 0x1680 ||
  (decide (0x2000 <= c.toNat) && decide (c.toNat <= 0x200a)) ||
  c.toNat == 0x2028 || c.toNat == 0x2029 || c.toNat == 0x202f ||
  c.toNat == 0x205f || c.toNat == 0x3000 || c.toNat == 0xfeff

/-- The character class of the JavaScript regex `\S`. -/
def notSpace (c : Char) : Bool := !(jsSpace c)

/-- `String.prototype.toLowerCase` / the effect of the regex `i` flag,
per character. -/
def lower (s : List Char) : List Char := s.map Char.toLower

/-- Left half of `String.prototype.trim`. -/
def trimLeft (s : List Char) : List Char := s.dropWhile jsSpace

/-- Right half of `String.prototype.trim`. -/
def trimRight (s : List Char) : List Char := (s.reverse.dropWhile jsSpace).reverse

/-- `String.prototype.trim`. -/
def trim (s : List Char) : List Char := trimRight (trimLeft s)

/-- First index at which `pat` occurs as a contiguous substring of the
second argument (the index returned by `String.prototype.indexOf` and by
a match of a literal regex pattern), or `none`. -/
def indexOfSub (pat : List Char) : List Char → Option Nat
  | [] => if pat.isEmpty then some 0 else none
  | c :: cs =>
    if pat.isPrefixOf (c :: cs) then some 0
    else (indexOfSub pat cs).map (fun n => n + 1)

/-- `String.prototype.indexOf`, which returns `-1` when absent. -/
def jsIndexOf (s pat : List Char) : Int :=
  match indexOfSub pat s with
  | some n => (n : Int)
  | none => -1

/-- `String.prototype.substring(i)`; a negative start is clamped to 0. -/
def jsSubstringFrom (s : List Char) (i : Int) : List Char := s.drop i.toNat

/-- The result of a successful match of the command regex
`/(\S+)\s+(\S+)(?:\s+\"([^\"]+)\")?/`: the full match `parts[0]` and the
three capture groups `parts[1]`, `parts[2]`, `parts[3]`. -/
structure CmdMatch where
  parts0 : List Char
  g1 : List Char
  g2 : List Char
  g3 : Option (List Char)
  deriving DecidableEq

/-- The optional tail `(?:\s+\"([^\"]+)\")?` of the command regex, tried at
the head of `s`.  Returns the consumed text together with the capture of
group 3 when the group matches; `none` means the optional group matches
the empty string.  Because every quantifier before the final `\"` is
greedy over a character class that the next required character fails,
backtracking never produces a different result than the maximal-run
reading used here. -/
def matchQuoted (s : List Char) : Option (List Char × List Char) :=
  let ws := s.takeWhile jsSpace
  let rest := s.dropWhile jsSpace
  if ws.isEmpty then none
  else
    match rest with
    | '"' :: r =>
      let content := r.takeWhile (fun c => c != '"')
      let r2 := r.dropWhile (fun c => c != '"')
      if content.isEmpty then none
      else
        match r2 with
        | '"' :: _ => some (ws ++ '"' :: (content ++ ['"']), content)
        | _ => none
    | _ => none

/-- A match of the command regex anchored at the head of `s`.  `(\S+)` and
`\s+` are greedy runs; shortening any of them puts a character of the
same class in front of the next atom, which fails, so the maximal runs
are the only candidates, and a failure of the optional group never
back-propagates because the group may match the empty string. -/
def matchAt (s : List Char) : Option CmdMatch :=
  let g1 := s.takeWhile notSpace
  let r1 := s.dropWhile notSpace
  let ws1 := r1.takeWhile jsSpace
  let r2 := r1.dropWhile jsSpace
  let g2 := r2.takeWhile notSpace
  let r3 := r2.dropWhile notSpace
  if g1.isEmpty || ws1.isEmpty || g2.isEmpty then none
  else
    match matchQuoted r3 with
    | some pr => some ⟨g1 ++ ws1 ++ g2 ++ pr.1, g1, g2, some pr.2⟩
    | none => some ⟨g1 ++ ws1 ++ g2, g1, g2, none⟩

/-- `commandPart.match(commandRegex)` for a non-global regex: the match at
the leftmost starting position at which one exists. -/
def scanMatch (s : List Char) : Option CmdMatch :=
  s.tails.findSome? matchAt

/-- The outcome of the parsing section of the handler, as named by the
specification: `NotMentioned | Malformed | Command`. -/
inductive ParseOutcome where
  | notMentioned : ParseOutcome
  | malformed : ParseOutcome
  | command : List Char → List Char → List Char → ParseOutcome
  deriving DecidableEq

/-- The literal text of `mentionRegex`, `"@" + appName + " create-pr"`.
For a mention name free of regex metacharacters (the default `om-bot`
is), the case-insensitive regex test is exactly a case-insensitive
substring search for this phrase. -/
def mentionPhrase (name : List Char) : List Char :=
  '@' :: (name ++ (" create-pr").toList)

/-- The unquoted-title fallback of line 88 of src/index.ts:
`commandPart.substring(parts[0].indexOf(parts[2]) + parts[2].length).trim()`. -/
def fallbackTitle (commandPart : List Char) (m : CmdMatch) : List Char :=
  trim (jsSubstringFrom commandPart (jsIndexOf m.parts0 m.g2 + (m.g2.length : Int)))

/-- The parsing section of the handler (src/index.ts lines 76-98) as the
pure function the specification calls `parse`.  `parts.length >= 3` is
always true for a non-null match, and `parts[1]`/`parts[2]` capture
`\S+` so are never empty; the `prTitle` binding models the JavaScript
`||`, which also falls back on an empty (falsy) group 3 — a state the
regex cannot produce, `[^\"]+` being non-empty. -/
def parse (name body : List Char) : ParseOutcome :=
  match indexOfSub (lower (mentionPhrase name)) (lower body) with
  | none => ParseOutcome.notMentioned
  | some idx =>
    let commandPart := trim (body.drop (idx + (mentionPhrase name).length))
    match scanMatch commandPart with
    | none => ParseOutcome.malformed
    | some m =>
      let prTitle :=
        match m.g3 with
        | some t => if t.isEmpty then fallbackTitle commandPart m else t
        | none => fallbackTitle commandPart m
      if m.g1.isEmpty || m.g2.isEmpty || prTitle.isEmpty then ParseOutcome.malformed
      else ParseOutcome.command m.g1 m.g2 prTitle

/-- An error thrown by the REST client: a numeric status and a message. -/
structure ApiError where
  status : Int
  message : List Char
  deriving DecidableEq

/-- The two fallible REST calls the handler awaits, as an oracle: the
result of `repos.getBranch` for a branch name, and of `pulls.create` for
a (title, head, base, body) quadruple, the latter returning `html_url`. -/
structure World where
  getBranch : List Char → Except ApiError Unit
  createPull : List Char → List Char → List Char → List Char → Except ApiError (List Char)

/-- One outbound REST call made by the handler, in the order issued.
`createPull` records (title, head, base, body). -/
inductive ApiCall where
  | getBranch : List Char → ApiCall
  | createPull : List Char → List Char → List Char → List Char → ApiCall
  | createComment : List Char → ApiCall
  deriving DecidableEq

/-- The usage comment of lines 95 and 140 of src/index.ts. -/
def usageMsg (name : List Char) : List Char :=
  ("Invalid command format. Please use: @").toList ++ name ++
    (" create-pr <source-branch> <target-branch> \"<PR title>\"").toList

/-- The failure comment assembled in the catch block (lines 122-127):
the 422 test comes first in the source, then 404, then no suffix. -/
def errorMsg (e : ApiError) : List Char :=
  let base := ("Failed to create pull request. Error: ").toList ++ e.message ++ (".").toList
  if e.status = 422 then
    base ++ (" This could be due to non-existent branches, no differences between branches, or insufficient permissions.").toList
  else if e.status = 404 then
    base ++ (" One or more branches were not found.").toList
  else base

/-- The generated pull-request body of line 111, crediting the actor. -/
def prBody (author name : List Char) : List Char :=
  ("Pull request created by @").toList ++ author ++ (" via ").toList ++ name ++ (".").toList

/-- The success comment of line 118. -/
def successMsg (url : List Char) : List Char :=
  ("Successfully created pull request: ").toList ++ url

/-- The whole `issue_comment.created` handler as the trace of REST calls
it issues against the oracle `w`, in order. -/
def handleComment (w : World) (name body author : List Char) : List ApiCall :=
  match parse name body with
  | ParseOutcome.notMentioned => []
  | ParseOutcome.malformed => [ApiCall.createComment (usageMsg name)]
  | ParseOutcome.command src tgt title =>
    match w.getBranch src with
    | Except.error e => [ApiCall.getBranch src, ApiCall.createComment (errorMsg e)]
    | Except.ok _ =>
      match w.createPull title src tgt (prBody author name) with
      | Except.error e =>
        [ApiCall.getBranch src, ApiCall.createPull title src tgt (prBody author name),
         ApiCall.createComment (errorMsg e)]
      | Except.ok url =>
        [ApiCall.getBranch src, ApiCall.createPull title src tgt (prBody author name),
         ApiCall.createComment (successMsg url)]

/-- The comments posted by a trace, in order. -/
def postedComments (as : List ApiCall) : List (List Char) :=
  as.filterMap (fun a =>
    match a with
    | ApiCall.createComment b => some b
    | _ => none)

/-- Spec-side definition, following the wording of section 4.1 step 3 of
the specification: after the first whitespace-delimited token and the
second whitespace-delimited token of the argument tail, "the literal
trailing text (after the second token) is the title", trimmed. -/
def specTrailingTitle (tail : List Char) : List Char :=
  trim (((tail.dropWhile notSpace).dropWhile jsSpace).dropWhile notSpace)

/-- Spec-side definition: the number of whitespace-delimited tokens of a
string.  The flag records whether the previous character was whitespace
or the start of the string. -/
def tokenCountAux : Bool → List Char → Nat
  | _, [] => 0
  | prevSpace, c :: cs =>
    if jsSpace c then tokenCountAux true cs
    else (if prevSpace then 1 else 0) + tokenCountAux false cs

/-- Spec-side definition: the number of whitespace-delimited tokens. -/
def tokenCount (s : List Char) : Nat := tokenCountAux true s

/-- The default mention name, `const appName = process.env.APP_NAME || "om-bot"`. -/
def omBot : List Char := ("om-bot").toList

/-- Test oracle: every call succeeds; creation returns `url`. -/
def okWorld (url : List Char) : World :=
  ⟨fun _ => Except.ok (), fun _ _ _ _ => Except.ok url⟩

/-- Test oracle: the branch lookup fails with `e`. -/
def branchFailWorld (e : ApiError) : World :=
  ⟨fun _ => Except.error e, fun _ _ _ _ => Except.ok []⟩

/-- Test oracle: the branch lookup succeeds, creation fails with `e`. -/
def pullFailWorld (e : ApiError) : World :=
  ⟨fun _ => Except.ok (), fun _ _ _ _ => Except.error e⟩

/-- Spec-side definition of the failure comment, worded as the claim
words it: the literal prefix, then the suffix for 404, the suffix for
422, and no suffix for any other status. -/
def claimErrMsg (e : ApiError) : List Char :=
  ("Failed to create pull request. Error: ").toList ++ e.message ++ (".").toList ++
    (if e.status = 404 then (" One or more branches were not found.").toList
     else if e.status = 422 then
       (" This could be due to non-existent branches, no differences between branches, or insufficient permissions.").toList
     else [])

lemma errorMsg_eq_claimErrMsg (e : ApiError) : errorMsg e = claimErrMsg e := by
  unfold errorMsg claimErrMsg
  by_cases h4 : e.status = 404
  · simp [h4]
  · by_cases h2 : e.status = 422 <;> simp [h4, h2]

lemma takeWhile_append_all {α : Type} (p : α → Bool) (l₁ l₂ : List α)
    (h : ∀ c ∈ l₁, p c = true) :
    (l₁ ++ l₂).takeWhile p = l₁ ++ l₂.takeWhile p := by
  induction l₁ with
  | nil => simp
  | cons c cs ih =>
    simp only [List.cons_append, List.takeWhile_cons, h c (by simp), if_true]
    rw [ih (fun x hx => h x (by simp [hx]))]

lemma dropWhile_append_all {α : Type} (p : α → Bool) (l₁ l₂ : List α)
    (h : ∀ c ∈ l₁, p c = true) :
    (l₁ ++ l₂).dropWhile p = l₂.dropWhile p := by
  induction l₁ with
  | nil => simp
  | cons c cs ih =>
    simp only [List.cons_append, List.dropWhile_cons, h c (by simp)]
    exact ih (fun x hx => h x (by simp [hx]))

lemma drop_len_append {α : Type} (l₁ l₂ : List α) (n : Nat) :
    (l₁ ++ l₂).drop (l₁.length + n) = l₂.drop n := by
  induction l₁ with
  | nil => simp
  | cons c cs ih => simp [Nat.succ_add, ih]

lemma indexOfSub_of_isPrefixOf (pat s : List Char) (h : pat.isPrefixOf s = true) :
    indexOfSub pat s = some 0 := by
  cases s with
  | nil =>
    cases pat with
    | nil => rfl
    | cons p ps => simp [List.isPrefixOf] at h
  | cons c cs => simp [indexOfSub, h]

/-- C9: parsing is deterministic — `parse` is a pure function of the
comment body and the mention name, so two runs of the handler on the
same inputs (the same oracle, mention name, body and actor) produce the
same outcome and the same call trace. -/
theorem c9_parse_deterministic (w : World) (name body author : List Char) :
    parse name body = parse name body ∧
    handleComment w name body author = handleComment w name body author :=
  ⟨rfl, rfl⟩

/-- C6: when the mention phrase `@<mentionName> create-pr` does not occur
(case-insensitively) anywhere in the comment body, the parse outcome is
`NotMentioned`, no comment is posted, and no API call of any kind is
made (the call trace is empty). -/
theorem c6_not_mentioned (w : World) (name body author : List Char)
    (h : indexOfSub (lower (mentionPhrase name)) (lower body) = none) :
    parse name body = ParseOutcome.notMentioned ∧
    handleComment w name body author = [] := by
  have hp : parse name body = ParseOutcome.notMentioned := by
    unfold parse
    rw [h]
  exact ⟨hp, by unfold handleComment; rw [hp]⟩

theorem c6_not_mentioned_witness :
    indexOfSub (lower (mentionPhrase omBot)) (lower (("@om-bot hello there").toList)) = none ∧
    parse omBot (("@om-bot hello there").toList) = ParseOutcome.notMentioned ∧
    handleComment (okWorld []) omBot (("@om-bot hello there").toList) [] = [] := by
  refine ⟨by decide, ?_⟩
  have := c6_not_mentioned (okWorld []) omBot (("@om-bot hello there").toList) [] (by decide)
  exact this

/-- C2: every failure of the branch lookup or of the pull-request
creation posts exactly one comment, whose text is the literal prefix
`Failed to create pull request. Error: <message>.` followed by the
404 suffix, the 422 suffix, or no suffix, keyed on the status code of
the error. -/
theorem c2_failure_comment (w : World) (name body author src tgt title : List Char)
    (e : ApiError)
    (hp : parse name body = ParseOutcome.command src tgt title)
    (hfail : w.getBranch src = Except.error e ∨
      (w.getBranch src = Except.ok () ∧
        w.createPull title src tgt (prBody author name) = Except.error e)) :
    postedComments (handleComment w name body author) = [claimErrMsg e] := by
  rcases hfail with hb | ⟨hb, hc⟩
  · simp [handleComment, hp, hb, postedComments, errorMsg_eq_claimErrMsg]
  · simp [handleComment, hp, hb, hc, postedComments, errorMsg_eq_claimErrMsg]

theorem c2_failure_comment_witness :
    postedComments (handleComment (pullFailWorld ⟨422, ("API Error").toList⟩) omBot
        (("@om-bot create-pr feature main \"T\"").toList) (("alice").toList)) =
      [claimErrMsg ⟨422, ("API Error").toList⟩] :=
  c2_failure_comment (pullFailWorld ⟨422, ("API Error").toList⟩) omBot
    (("@om-bot create-pr feature main \"T\"").toList) (("alice").toList)
    (("feature").toList) (("main").toList) (("T").toList) ⟨422, ("API Error").toList⟩
    (by decide) (Or.inr ⟨rfl, rfl⟩)

/-- C3: when the branch lookup and the pull-request creation both
succeed, the creation is requested with head = sourceBranch,
base = targetBranch, title = the parsed title and the generated body
crediting the actor, and exactly one comment is posted, containing the
literal text `Successfully created pull request: <url>`. -/
theorem c3_success_path (w : World) (name body author src tgt title url : List Char)
    (hp : parse name body = ParseOutcome.command src tgt title)
    (hb : w.getBranch src = Except.ok ())
    (hc : w.createPull title src tgt (prBody author name) = Except.ok url) :
    handleComment w name body author =
      [ApiCall.getBranch src, ApiCall.createPull title src tgt (prBody author name),
       ApiCall.createComment (successMsg url)] ∧
    postedComments (handleComment w name body author) = [successMsg url] := by
  have ht : handleComment w name body author =
      [ApiCall.getBranch src, ApiCall.createPull title src tgt (prBody author name),
       ApiCall.createComment (successMsg url)] := by
    simp [handleComment, hp, hb, hc]
  exact ⟨ht, by rw [ht]; simp [postedComments]⟩

theorem c3_success_path_witness :
    handleComment (okWorld (("https://github.com/test-owner/test-repo/pull/1").toList)) omBot
        (("@om-bot create-pr feature/new-branch main \"Add awesome feature\"").toList)
        (("test-user").toList) =
      [ApiCall.getBranch (("feature/new-branch").toList),
       ApiCall.createPull (("Add awesome feature").toList) (("feature/new-branch").toList)
         (("main").toList) (prBody (("test-user").toList) omBot),
       ApiCall.createComment (successMsg (("https://github.com/test-owner/test-repo/pull/1").toList))] :=
  (c3_success_path (okWorld (("https://github.com/test-owner/test-repo/pull/1").toList)) omBot
    (("@om-bot create-pr feature/new-branch main \"Add awesome feature\"").toList)
    (("test-user").toList) (("feature/new-branch").toList) (("main").toList)
    (("Add awesome feature").toList) (("https://github.com/test-owner/test-repo/pull/1").toList)
    (by decide) rfl rfl).1

/-- C4: whenever the branch lookup for the source branch fails, the
pull-request creation is never attempted: the trace is exactly the
lookup followed by the classified failure comment, and contains no
creation call. -/
theorem c4_lookup_short_circuit (w : World) (name body author src tgt title : List Char)
    (e : ApiError)
    (hp : parse name body = ParseOutcome.command src tgt title)
    (hb : w.getBranch src = Except.error e) :
    handleComment w name body author =
      [ApiCall.getBranch src, ApiCall.createComment (claimErrMsg e)] ∧
    ∀ t h b bo, ApiCall.createPull t h b bo ∉ handleComment w name body author := by
  have ht : handleComment w name body author =
      [ApiCall.getBranch src, ApiCall.createComment (claimErrMsg e)] := by
    simp [handleComment, hp, hb, errorMsg_eq_claimErrMsg]
  refine ⟨ht, fun t h b bo => ?_⟩
  rw [ht]
  simp

theorem c4_lookup_short_circuit_witness :
    handleComment (branchFailWorld ⟨404, ("Branch not found").toList⟩) omBot
        (("@om-bot create-pr feature main \"T\"").toList) (("alice").toList) =
      [ApiCall.getBranch (("feature").toList),
       ApiCall.createComment (claimErrMsg ⟨404, ("Branch not found").toList⟩)] :=
  (c4_lookup_short_circuit (branchFailWorld ⟨404, ("Branch not found").toList⟩) omBot
    (("@om-bot create-pr feature main \"T\"").toList) (("alice").toList)
    (("feature").toList) (("main").toList) (("T").toList) ⟨404, ("Branch not found").toList⟩
    (by decide) rfl).1

lemma tokenCountAux_false_nonspace (g rest : List Char) (h : ∀ c ∈ g, notSpace c = true) :
    tokenCountAux false (g ++ rest) = tokenCountAux false rest := by
  induction g with
  | nil => rfl
  | cons c cs ih =>
    have hc : jsSpace c = false := by
      have := h c (by simp)
      simpa [notSpace] using this
    simp only [List.cons_append, tokenCountAux, hc]
    simpa using ih (fun x hx => h x (by simp [hx]))

lemma tokenCountAux_nonspace_append (g rest : List Char) (hne : g ≠ [])
    (h : ∀ c ∈ g, notSpace c = true) :
    tokenCountAux true (g ++ rest) = 1 + tokenCountAux false rest := by
  cases g with
  | nil => exact absurd rfl hne
  | cons c cs =>
    have hc : jsSpace c = false := by
      have := h c (by simp)
      simpa [notSpace] using this
    simp only [List.cons_append, tokenCountAux, hc]
    simp [tokenCountAux_false_nonspace cs rest (fun x hx => h x (by simp [hx]))]

lemma tokenCountAux_space_append (ws rest : List Char) (b : Bool) (hne : ws ≠ [])
    (h : ∀ c ∈ ws, jsSpace c = true) :
    tokenCountAux b (ws ++ rest) = tokenCountAux true rest := by
  induction ws generalizing b with
  | nil => exact absurd rfl hne
  | cons c cs ih =>
    have hc : jsSpace c = true := h c (by simp)
    simp only [List.cons_append, tokenCountAux, hc, if_true]
    cases cs with
    | nil => rfl
    | cons d ds => exact ih true (by simp) (fun x hx => h x (by simp [hx]))

lemma tokenCountAux_true_le (s : List Char) :
    tokenCountAux true s ≤ tokenCountAux false s + 1 := by
  induction s with
  | nil => simp [tokenCountAux]
  | cons c cs ih =>
    cases hc : jsSpace c with
    | true => simp [tokenCountAux, hc]
    | false =>
      simp only [tokenCountAux, hc, Bool.false_eq_true, if_false, if_true]
      omega

lemma matchAt_nonempties (s : List Char) (m : CmdMatch) (h : matchAt s = some m) :
    s.takeWhile notSpace ≠ [] ∧
    (s.dropWhile notSpace).takeWhile jsSpace ≠ [] ∧
    ((s.dropWhile notSpace).dropWhile jsSpace).takeWhile notSpace ≠ [] := by
  simp only [matchAt] at h
  split at h
  · exact Option.noConfusion h
  · next hcond =>
    simp only [Bool.or_eq_true, List.isEmpty_iff, not_or] at hcond
    exact ⟨hcond.1.1, hcond.1.2, hcond.2⟩

lemma matchAt_tokenCount (s : List Char) (m : CmdMatch) (h : matchAt s = some m) :
    2 ≤ tokenCount s := by
  obtain ⟨h1, h2, h3⟩ := matchAt_nonempties s m h
  have hs : s = s.takeWhile notSpace ++
      ((s.dropWhile notSpace).takeWhile jsSpace ++
        (((s.dropWhile notSpace).dropWhile jsSpace).takeWhile notSpace ++
          ((s.dropWhile notSpace).dropWhile jsSpace).dropWhile notSpace)) := by
    rw [List.takeWhile_append_dropWhile, List.takeWhile_append_dropWhile,
        List.takeWhile_append_dropWhile]
  calc 2 ≤ 1 + (1 + tokenCountAux false
        (((s.dropWhile notSpace).dropWhile jsSpace).dropWhile notSpace)) := by omega
    _ = tokenCount s := by
      rw [tokenCount]
      conv_rhs => rw [hs]
      rw [tokenCountAux_nonspace_append _ _ h1 (fun c hc => List.mem_takeWhile_imp hc),
          tokenCountAux_space_append _ _ _ h2 (fun c hc => List.mem_takeWhile_imp hc),
          tokenCountAux_nonspace_append _ _ h3 (fun c hc => List.mem_takeWhile_imp hc)]

lemma scanMatch_tokenCount (s : List Char) (m : CmdMatch) (h : scanMatch s = some m) :
    2 ≤ tokenCount s := by
  induction s with
  | nil => simp [scanMatch, List.findSome?_cons, matchAt] at h
  | cons c cs ih =>
    rw [scanMatch, List.tails_cons, List.findSome?_cons] at h
    cases hm : matchAt (c :: cs) with
    | some m2 => exact matchAt_tokenCount _ _ hm
    | none =>
      rw [hm] at h
      rw [show (List.findSome? matchAt cs.tails) = scanMatch cs from rfl] at h
      have h2 := ih h
      have hle := tokenCountAux_true_le cs
      cases hc : jsSpace c with
      | true => simpa [tokenCount, tokenCountAux, hc] using h2
      | false =>
        simp only [tokenCount, tokenCountAux, hc, Bool.false_eq_true, if_false, if_true] at h2 ⊢
        omega

/-- C5 (amended): when the comment contains the mention phrase, the
outcome is Malformed — exactly one usage comment is posted and no
branch-lookup or PR-creation call is made — whenever the argument tail
has fewer than two whitespace-delimited tokens, and whenever the
unquoted fallback title resolves to the empty string (equivalently,
empty after trimming, the fallback being trimmed); and every Malformed
outcome posts exactly the one usage comment.  A quoted title that is
whitespace-only is a non-empty string and is not treated as Malformed
(see the counterexample), and the branch fields, matched as runs of
non-whitespace, can never be empty. -/
theorem c5_malformed_usage_amended :
    (∀ (w : World) (name body author : List Char) (idx : Nat),
      indexOfSub (lower (mentionPhrase name)) (lower body) = some idx →
      tokenCount (trim (body.drop (idx + (mentionPhrase name).length))) < 2 →
      parse name body = ParseOutcome.malformed ∧
      handleComment w name body author = [ApiCall.createComment (usageMsg name)]) ∧
    (∀ (name body : List Char) (idx : Nat) (m : CmdMatch),
      indexOfSub (lower (mentionPhrase name)) (lower body) = some idx →
      scanMatch (trim (body.drop (idx + (mentionPhrase name).length))) = some m →
      m.g3 = none →
      fallbackTitle (trim (body.drop (idx + (mentionPhrase name).length))) m = [] →
      parse name body = ParseOutcome.malformed) ∧
    (∀ (w : World) (name body author : List Char),
      parse name body = ParseOutcome.malformed →
      handleComment w name body author = [ApiCall.createComment (usageMsg name)]) := by
  have part3 : ∀ (w : World) (name body author : List Char),
      parse name body = ParseOutcome.malformed →
      handleComment w name body author = [ApiCall.createComment (usageMsg name)] := by
    intro w name body author hp
    simp [handleComment, hp]
  refine ⟨?_, ?_, part3⟩
  · intro w name body author idx hidx htc
    have hscan : scanMatch (trim (body.drop (idx + (mentionPhrase name).length))) = none := by
      cases hs : scanMatch (trim (body.drop (idx + (mentionPhrase name).length))) with
      | none => rfl
      | some m => exact absurd (scanMatch_tokenCount _ _ hs) (by omega)
    have hp : parse name body = ParseOutcome.malformed := by
      simp [parse, hidx, hscan]
    exact ⟨hp, part3 w name body author hp⟩
  · intro name body idx m hidx hm hg3 hft
    simp [parse, hidx, hm, hg3, hft]

theorem c5_malformed_usage_witness :
    (parse omBot (("@om-bot create-pr A").toList) = ParseOutcome.malformed ∧
      handleComment (okWorld []) omBot (("@om-bot create-pr A").toList) (("alice").toList) =
        [ApiCall.createComment (usageMsg omBot)]) ∧
    parse omBot (("@om-bot create-pr A B").toList) = ParseOutcome.malformed ∧
    handleComment (okWorld []) omBot (("@om-bot create-pr A B").toList) (("alice").toList) =
      [ApiCall.createComment (usageMsg omBot)] :=
  ⟨c5_malformed_usage_amended.1 (okWorld []) omBot (("@om-bot create-pr A").toList)
      (("alice").toList) 0 (by decide) (by decide),
   c5_malformed_usage_amended.2.1 omBot (("@om-bot create-pr A B").toList) 0
      ⟨(("A B").toList), (("A").toList), (("B").toList), none⟩
      (by decide) (by decide) rfl (by decide),
   c5_malformed_usage_amended.2.2 (okWorld []) omBot (("@om-bot create-pr A B").toList)
      (("alice").toList) (by decide)⟩

/-- C5 (counterexample): the body `@om-bot create-pr A B "   "` has a
resolved title that is empty after trimming, yet the outcome is a
Command, not Malformed: no usage comment is posted and the branch
lookup and the PR creation are both attempted. -/
theorem c5_malformed_usage_counterexample :
    parse omBot (("@om-bot create-pr A B \"   \"").toList) =
      ParseOutcome.command (("A").toList) (("B").toList) (("   ").toList) ∧
    trim (("   ").toList) = [] ∧
    parse omBot (("@om-bot create-pr A B \"   \"").toList) ≠ ParseOutcome.malformed ∧
    handleComment (okWorld (("u").toList)) omBot (("@om-bot create-pr A B \"   \"").toList)
        (("alice").toList) ≠ [ApiCall.createComment (usageMsg omBot)] := by
  refine ⟨by decide, by decide, by decide, by decide⟩

lemma matchAt_inv (s : List Char) (m : CmdMatch) (h : matchAt s = some m) :
    m.g1 = s.takeWhile notSpace ∧
    m.g2 = ((s.dropWhile notSpace).dropWhile jsSpace).takeWhile notSpace ∧
    (m.g3 = none →
      m.parts0 = s.takeWhile notSpace ++ (s.dropWhile notSpace).takeWhile jsSpace ++
        ((s.dropWhile notSpace).dropWhile jsSpace).takeWhile notSpace) := by
  simp only [matchAt] at h
  split at h
  · exact Option.noConfusion h
  · split at h
    · injection h with h2
      subst h2
      exact ⟨rfl, rfl, fun hg3 => Option.noConfusion hg3⟩
    · injection h with h2
      subst h2
      exact ⟨rfl, rfl, fun _ => rfl⟩

lemma scanMatch_cons_some (c : Char) (cs : List Char) (m : CmdMatch)
    (hm : matchAt (c :: cs) = some m) : scanMatch (c :: cs) = some m := by
  rw [scanMatch, List.tails_cons, List.findSome?_cons, hm]

lemma scanMatch_inv (s : List Char) (m : CmdMatch) (h : scanMatch s = some m) :
    ∃ t : List Char, matchAt t = some m := by
  induction s with
  | nil => simp [scanMatch, List.findSome?_cons, matchAt] at h
  | cons c cs ih =>
    rw [scanMatch, List.tails_cons, List.findSome?_cons] at h
    cases hm : matchAt (c :: cs) with
    | none =>
      rw [hm] at h
      exact ih h
    | some m2 =>
      rw [hm] at h
      injection h with h2
      exact ⟨c :: cs, h2 ▸ hm⟩

lemma scanMatch_groups (s : List Char) (m : CmdMatch) (h : scanMatch s = some m) :
    (∀ c ∈ m.g1, notSpace c = true) ∧ (∀ c ∈ m.g2, notSpace c = true) := by
  obtain ⟨t, hm⟩ := scanMatch_inv s m h
  obtain ⟨h1, h2, _⟩ := matchAt_inv t m hm
  constructor
  · intro c hc
    rw [h1] at hc
    exact List.mem_takeWhile_imp hc
  · intro c hc
    rw [h2] at hc
    exact List.mem_takeWhile_imp hc

lemma dropWhile_eq_self_of_forall {α : Type} (p : α → Bool) (l : List α)
    (h : ∀ c ∈ l, p c = false) : l.dropWhile p = l := by
  cases l with
  | nil => rfl
  | cons c cs => simp [List.dropWhile_cons, h c (by simp)]

lemma trim_eq_self_of_notSpace (s : List Char) (h : ∀ c ∈ s, notSpace c = true) :
    trim s = s := by
  have hf : ∀ c ∈ s, jsSpace c = false := by
    intro c hc
    have := h c hc
    simpa [notSpace] using this
  unfold trim trimLeft trimRight
  rw [dropWhile_eq_self_of_forall _ _ hf,
      dropWhile_eq_self_of_forall _ _ (fun c hc => hf c (List.mem_reverse.mp hc)),
      List.reverse_reverse]

/-- C8 (amended): every `Command` produced by `parse` has a non-empty
source branch, a non-empty target branch and a non-empty title as
strings; the two branch fields contain no whitespace, so they are also
unchanged (hence non-empty) after trimming.  The original stronger
invariant fails: a quoted whitespace-only title is accepted although it
is empty after trimming, and the resolved title can include the literal
branch tokens (see the counterexample). -/
theorem c8_command_fields_amended (name body src tgt title : List Char)
    (h : parse name body = ParseOutcome.command src tgt title) :
    src ≠ [] ∧ tgt ≠ [] ∧ title ≠ [] ∧
    (∀ c ∈ src, notSpace c = true) ∧ (∀ c ∈ tgt, notSpace c = true) ∧
    trim src = src ∧ trim tgt = tgt := by
  simp only [parse] at h
  cases hidx : indexOfSub (lower (mentionPhrase name)) (lower body) with
  | none => rw [hidx] at h; exact ParseOutcome.noConfusion h
  | some idx =>
    rw [hidx] at h
    dsimp only at h
    cases hm : scanMatch (trim (body.drop (idx + (mentionPhrase name).length))) with
    | none => rw [hm] at h; exact ParseOutcome.noConfusion h
    | some m =>
      rw [hm] at h
      dsimp only at h
      split at h
      · exact ParseOutcome.noConfusion h
      · next hguard =>
        injection h with h1 h2 h3
        rw [Bool.not_eq_true] at hguard
        simp only [Bool.or_eq_false_iff] at hguard
        obtain ⟨⟨hg1, hg2⟩, hg3⟩ := hguard
        rw [h3] at hg3
        obtain ⟨hm1, hm2⟩ := scanMatch_groups _ _ hm
        rw [h1] at hm1 hg1
        rw [h2] at hm2 hg2
        have hne : ∀ l : List Char, l.isEmpty = false → l ≠ [] := by
          intro l hl hnil
          rw [hnil] at hl
          exact Bool.noConfusion hl
        exact ⟨hne _ hg1, hne _ hg2, hne _ hg3, hm1, hm2,
          trim_eq_self_of_notSpace _ hm1, trim_eq_self_of_notSpace _ hm2⟩

theorem c8_command_fields_witness :
    (("a").toList ≠ [] ∧ (("b").toList : List Char) ≠ [] ∧ (("t").toList : List Char) ≠ [] ∧
      (∀ c ∈ (("a").toList : List Char), notSpace c = true) ∧
      (∀ c ∈ (("b").toList : List Char), notSpace c = true) ∧
      trim (("a").toList) = ("a").toList ∧ trim (("b").toList) = ("b").toList) :=
  c8_command_fields_amended omBot (("@om-bot create-pr a b t").toList)
    (("a").toList) (("b").toList) (("t").toList) (by decide)

/-- C8 (counterexample): for `@om-bot create-pr A A T` the resolved
title is `A T`, which contains the consumed target-branch token `A`,
and for `@om-bot create-pr A B "   "` the resolved title is whitespace
only, hence empty after trimming — both contradicting the claimed
invariant. -/
theorem c8_command_fields_counterexample :
    parse omBot (("@om-bot create-pr A A T").toList) =
      ParseOutcome.command (("A").toList) (("A").toList) (("A T").toList) ∧
    indexOfSub (("A").toList) (("A T").toList) ≠ none ∧
    parse omBot (("@om-bot create-pr A B \"   \"").toList) =
      ParseOutcome.command (("A").toList) (("B").toList) (("   ").toList) ∧
    trim (("   ").toList) = [] := by
  refine ⟨by decide, by decide, by decide, by decide⟩

lemma notSpace_space : notSpace ' ' = false := by decide

lemma jsSpace_space : jsSpace ' ' = true := by decide

lemma jsSpace_quote : jsSpace '"' = false := by decide

lemma lower_append (a b : List Char) : lower (a ++ b) = lower a ++ lower b := by
  unfold lower
  exact List.map_append _ _ _

lemma indexOfSub_prefix_zero (pat rest : List Char) :
    indexOfSub pat (pat ++ rest) = some 0 := by
  apply indexOfSub_of_isPrefixOf
  rw [ List.isPrefixOf_iff_prefix]
  exact List.prefix_append pat rest

lemma trim_cons_space (s : List Char) : trim (' ' :: s) = trim s := by
  unfold trim trimLeft
  simp [List.dropWhile_cons, jsSpace_space]

lemma trimLeft_cons_of_notSpace (c : Char) (s : List Char) (hc : jsSpace c = false) :
    trimLeft (c :: s) = c :: s := by
  unfold trimLeft
  simp [List.dropWhile_cons, hc]

lemma trimRight_append_of_notSpace (s : List Char) (c : Char) (hc : jsSpace c = false) :
    trimRight (s ++ [c]) = s ++ [c] := by
  unfold trimRight
  rw [List.reverse_append]
  simp [List.dropWhile_cons, hc]

/-- C7: for every well-formed input `@<mentionName> create-pr A B "T"`,
with `A` and `B` non-empty whitespace-free tokens and `T` a non-empty
string containing no double quote, `parse` returns `Command` with
sourceBranch `A`, targetBranch `B` and title exactly `T`, the quotes
stripped. -/
theorem c7_wellformed_quoted (name A B T : List Char)
    (hA : A ≠ []) (hAn : ∀ c ∈ A, notSpace c = true)
    (hB : B ≠ []) (hBn : ∀ c ∈ B, notSpace c = true)
    (hT : T ≠ []) (hTq : ∀ c ∈ T, c ≠ '"') :
    parse name (mentionPhrase name ++
        (' ' :: (A ++ ' ' :: (B ++ ' ' :: '"' :: (T ++ ['"']))))) =
      ParseOutcome.command A B T := by
  obtain ⟨a, A', rfl⟩ := List.exists_cons_of_ne_nil hA
  obtain ⟨b, B', rfl⟩ := List.exists_cons_of_ne_nil hB
  have hja : jsSpace a = false := by
    have := hAn a (by simp)
    simpa [notSpace] using this
  have hjb : jsSpace b = false := by
    have := hBn b (by simp)
    simpa [notSpace] using this
  have hTq' : ∀ c ∈ T, (c != '"') = true := by
    intro c hc
    simpa using hTq c hc
  set X3 : List Char := '"' :: (T ++ ['"']) with hX3def
  set X2 : List Char := (b :: B') ++ ' ' :: X3 with hX2def
  set rest : List Char := (a :: A') ++ ' ' :: X2 with hrestdef
  have hidx : indexOfSub (lower (mentionPhrase name))
      (lower (mentionPhrase name ++ (' ' :: rest))) = some 0 := by
    rw [lower_append]
    exact indexOfSub_prefix_zero _ _
  have hdrop : (mentionPhrase name ++ (' ' :: rest)).drop
      (0 + (mentionPhrase name).length) = ' ' :: rest := by
    rw [Nat.zero_add, List.drop_left]
  have hg1 : rest.takeWhile notSpace = a :: A' := by
    rw [hrestdef, takeWhile_append_all _ _ _ hAn]
    simp [List.takeWhile_cons, notSpace_space]
  have hr1 : rest.dropWhile notSpace = ' ' :: X2 := by
    rw [hrestdef, dropWhile_append_all _ _ _ hAn]
    simp [List.dropWhile_cons, notSpace_space]
  have hws1 : (' ' :: X2).takeWhile jsSpace = [' '] := by
    rw [hX2def]
    simp [List.takeWhile_cons, jsSpace_space, hjb]
  have hr2 : (' ' :: X2).dropWhile jsSpace = X2 := by
    rw [hX2def]
    simp [List.dropWhile_cons, jsSpace_space, hjb]
  have hg2 : X2.takeWhile notSpace = b :: B' := by
    rw [hX2def, takeWhile_append_all _ _ _ hBn]
    simp [List.takeWhile_cons, notSpace_space]
  have hr3 : X2.dropWhile notSpace = ' ' :: X3 := by
    rw [hX2def, dropWhile_append_all _ _ _ hBn]
    simp [List.dropWhile_cons, notSpace_space]
  have hcontent : (T ++ ['"']).takeWhile (fun c => c != '"') = T := by
    rw [takeWhile_append_all _ _ _ hTq']
    simp [List.takeWhile_cons]
  have hrq : (T ++ ['"']).dropWhile (fun c => c != '"') = ['"'] := by
    rw [dropWhile_append_all _ _ _ hTq']
    simp [List.dropWhile_cons]
  have hTne : T.isEmpty = false := by
    cases T with
    | nil => exact absurd rfl hT
    | cons t T' => rfl
  have hq : matchQuoted (' ' :: X3) = some ([' '] ++ '"' :: (T ++ ['"']), T) := by
    rw [hX3def]
    simp only [matchQuoted, List.takeWhile_cons, List.dropWhile_cons, jsSpace_space,
      jsSpace_quote, if_true, if_false, Bool.false_eq_true]
    simp [hcontent, hrq, hTne]
  have hmatch : matchAt rest =
      some ⟨(a :: A') ++ [' '] ++ (b :: B') ++ ([' '] ++ '"' :: (T ++ ['"'])),
        a :: A', b :: B', some T⟩ := by
    simp only [matchAt, hg1, hr1, hws1, hr2, hg2, hr3, hq]
    simp
  have hscan : scanMatch rest = some
      ⟨(a :: A') ++ [' '] ++ (b :: B') ++ ([' '] ++ '"' :: (T ++ ['"'])),
        a :: A', b :: B', some T⟩ := by
    have hrestcons : rest = a :: (A' ++ ' ' :: X2) := by
      rw [hrestdef]
      simp
    rw [hrestcons] at hmatch ⊢
    exact scanMatch_cons_some _ _ _ hmatch
  have hrest_split : rest = (a :: (A' ++ ' ' :: (b :: (B' ++ ' ' :: '"' :: T)))) ++ ['"'] := by
    rw [hrestdef, hX2def, hX3def]
    simp
  have htrim : trim (' ' :: rest) = rest := by
    rw [trim_cons_space]
    unfold trim
    have h1 : trimLeft rest = rest := by
      rw [show rest = a :: (A' ++ ' ' :: X2) from by rw [hrestdef]; simp]
      exact trimLeft_cons_of_notSpace _ _ hja
    rw [h1, hrest_split]
    exact trimRight_append_of_notSpace _ _ jsSpace_quote
  simp only [parse, hidx, hdrop, htrim, hscan, hTne]
  simp [hT]

theorem c7_wellformed_quoted_witness :
    parse omBot (mentionPhrase omBot ++
        (' ' :: ((("feature").toList) ++ ' ' :: ((("main").toList) ++
          ' ' :: '"' :: ((("Add x").toList) ++ ['"']))))) =
      ParseOutcome.command (("feature").toList) (("main").toList) (("Add x").toList) :=
  c7_wellformed_quoted omBot (("feature").toList) (("main").toList) (("Add x").toList)
    (by decide) (by decide) (by decide) (by decide) (by decide) (by decide)

/-- C1 (amended): for an argument tail (trimmed, as the handler trims it)
on which the command regex matches with no quoted title group, the
resolved title is the trailing text of the tail starting after the first
occurrence of the second token inside the matched prefix; when that
first occurrence is the actual position of the second token — the
hypothesis `k + |g2| = |parts0|` — the title is exactly the literal
trailing text after the second token, trimmed, as the claim states.
Without that hypothesis the claim fails (see the counterexample): the
source locates the second token with `indexOf`, which can find an
earlier occurrence.  The claimed instance `@bot create-pr A B T1 T2 ↦
Command(A, B, "T1 T2")` satisfies the hypothesis and is the witness. -/
theorem c1_unquoted_title_amended (name tail : List Char) (m : CmdMatch) (k : Nat)
    (ht : trim tail = tail)
    (hm : matchAt tail = some m)
    (hq : m.g3 = none)
    (hk : indexOfSub m.g2 m.parts0 = some k)
    (hkpos : k + m.g2.length = m.parts0.length)
    (hne : specTrailingTitle tail ≠ []) :
    parse name (mentionPhrase name ++ (' ' :: tail)) =
      ParseOutcome.command m.g1 m.g2 (specTrailingTitle tail) := by
  have hidx : indexOfSub (lower (mentionPhrase name))
      (lower (mentionPhrase name ++ (' ' :: tail))) = some 0 := by
    rw [lower_append]
    exact indexOfSub_prefix_zero _ _
  have hdropA : (mentionPhrase name ++ (' ' :: tail)).drop
      (0 + (mentionPhrase name).length) = ' ' :: tail := by
    rw [Nat.zero_add, List.drop_left]
  have htrim : trim (' ' :: tail) = tail := by
    rw [trim_cons_space, ht]
  obtain ⟨hg1, hg2, hp0⟩ := matchAt_inv tail m hm
  have hp0' := hp0 hq
  have hscan : scanMatch tail = some m := by
    cases tail with
    | nil => simp [matchAt] at hm
    | cons c cs => exact scanMatch_cons_some _ _ _ hm
  have hdecomp : tail = m.parts0 ++
      ((tail.dropWhile notSpace).dropWhile jsSpace).dropWhile notSpace := by
    rw [hp0', List.append_assoc, List.append_assoc,
        List.takeWhile_append_dropWhile, List.takeWhile_append_dropWhile,
        List.takeWhile_append_dropWhile]
  have hdrop2 : List.drop m.parts0.length tail =
      ((tail.dropWhile notSpace).dropWhile jsSpace).dropWhile notSpace := by
    conv_lhs => rw [hdecomp]
    rw [List.drop_left]
  have hfb : fallbackTitle tail m = specTrailingTitle tail := by
    unfold fallbackTitle jsIndexOf jsSubstringFrom
    rw [hk]
    have hcast : ((k : Int) + (m.g2.length : Int)).toNat = m.parts0.length := by
      omega
    rw [hcast, hdrop2]
    rfl
  obtain ⟨hne1, _, hne3⟩ := matchAt_nonempties tail m hm
  have hg1ne : m.g1.isEmpty = false := by
    rw [hg1]
    cases hcc : List.takeWhile notSpace tail with
    | nil => exact absurd hcc hne1
    | cons x xs => rfl
  have hg2ne : m.g2.isEmpty = false := by
    rw [hg2]
    cases hcc : List.takeWhile notSpace ((tail.dropWhile notSpace).dropWhile jsSpace) with
    | nil => exact absurd hcc hne3
    | cons x xs => rfl
  have hfne : (fallbackTitle tail m).isEmpty = false := by
    rw [hfb]
    cases hcc : specTrailingTitle tail with
    | nil => exact absurd hcc hne
    | cons x xs => rfl
  simp only [parse, hidx, hdropA, htrim, hscan, hq]
  simp [hg1ne, hg2ne, hfne, hfb, hne]

theorem c1_unquoted_title_witness :
    parse omBot (mentionPhrase omBot ++ (' ' :: (("A B T1 T2").toList))) =
      ParseOutcome.command (("A").toList) (("B").toList)
        (specTrailingTitle (("A B T1 T2").toList)) ∧
    specTrailingTitle (("A B T1 T2").toList) = ("T1 T2").toList :=
  ⟨c1_unquoted_title_amended omBot (("A B T1 T2").toList)
      ⟨("A B").toList, ("A").toList, ("B").toList, none⟩ 2
      (by decide) (by decide) rfl (by decide) (by decide) (by decide),
   by decide⟩

/-- C1 (counterexample): for the argument tail `BX B T` — at least two
tokens, remainder not quote-wrapped — the claim predicts the title `T`,
but the code returns the title `X B T`, because `indexOf` finds the
second token `B` inside the first token `BX`. -/
theorem c1_unquoted_title_counterexample :
    specTrailingTitle (("BX B T").toList) = ("T").toList ∧
    parse omBot (("@om-bot create-pr BX B T").toList) =
      ParseOutcome.command (("BX").toList) (("B").toList) (("X B T").toList) ∧
    parse omBot (("@om-bot create-pr BX B T").toList) ≠
      ParseOutcome.command (("BX").toList) (("B").toList) (("T").toList) := by
  refine ⟨by decide, by decide, by decide⟩

lemma toNat_ofNat_letter (n : Nat) (h1 : 97 ≤ n) (h2 : n ≤ 122) :
    (Char.ofNat n).toNat = n := by
  unfold Char.ofNat
  rw [dif_pos (show n.isValidChar by constructor; omega)]
  rfl

lemma toLower_of_jsSpace (c : Char) (h : jsSpace c = true) : c.toLower = c := by
  have hn : c.toNat < 65 ∨ 90 < c.toNat := by
    simp only [jsSpace, Bool.or_eq_true, beq_iff_eq, decide_eq_true_eq,
      Bool.and_eq_true] at h
    rcases h with ((((((((((((((h | h) | h) | h) | h) | h) | h) | h) | ⟨h1, h2⟩) | h) | h) |
      h) | h) | h) | h)
    all_goals first
      | (subst h; decide)
      | omega
  simp only [Char.toLower]
  rw [if_neg (by omega)]

lemma toLower_eq_at_iff (c : Char) : c.toLower = '@' ↔ c = '@' := by
  constructor
  · intro h
    by_contra hc
    simp only [Char.toLower] at h
    by_cases hr : c.toNat ≥ 65 ∧ c.toNat ≤ 90
    · rw [if_pos hr] at h
      have h64 : (Char.ofNat (c.toNat + 32)).toNat = c.toNat + 32 :=
        toNat_ofNat_letter _ (by omega) (by omega)
      rw [h] at h64
      have : ('@').toNat = 64 := by decide
      omega
    · rw [if_neg hr] at h
      exact hc h
  · intro h
    subst h
    decide

lemma lower_of_all_jsSpace (ws : List Char) (h : ∀ c ∈ ws, jsSpace c = true) :
    lower ws = ws := by
  induction ws with
  | nil => rfl
  | cons c cs ih =>
    unfold lower at ih ⊢
    simp only [List.map_cons, toLower_of_jsSpace c (h c (by simp))]
    rw [ih (fun x hx => h x (by simp [hx]))]

lemma jsSpace_at_false : jsSpace '@' = false := by decide

lemma indexOfSub_eq_none (pat : List Char) (s : List Char)
    (h : ∀ i, pat.isPrefixOf (s.drop i) = false) : indexOfSub pat s = none := by
  induction s with
  | nil =>
    have h0 := h 0
    cases pat with
    | nil => simp [List.isPrefixOf] at h0
    | cons p ps => rfl
  | cons c cs ih =>
    have h0 : pat.isPrefixOf (c :: cs) = false := by
      have := h 0
      simpa using this
    rw [indexOfSub, if_neg (by simp [h0])]
    rw [ih (fun i => by simpa [List.drop_succ_cons] using h (i + 1))]
    rfl

lemma isPrefixOf_append_same (a x y : List Char) :
    (a ++ x).isPrefixOf (a ++ y) = x.isPrefixOf y := by
  induction a with
  | nil => rfl
  | cons c cs ih => simp [List.isPrefixOf, ih]

lemma isPrefixOf_cons_head_false (p : Char) (ps : List Char) (c : Char) (cs : List Char)
    (h : (p == c) = false) : (p :: ps).isPrefixOf (c :: cs) = false := by
  simp [List.isPrefixOf, h]

/-- C10: mention detection requires exactly the single literal space of
the pattern between `@om-bot` and `create-pr`: for every body built from
the mention `@om-bot`, a whitespace-only separator other than one single
space (two spaces, a tab, a newline, or nothing at all), the command
word `create-pr`, and any tail that starts no other mention (no `@` in
it), the outcome is NotMentioned: no comment is posted and no API call
of any kind is made. -/
theorem c10_single_space_required (w : World) (author ws tail2 : List Char)
    (hws : ∀ c ∈ ws, jsSpace c = true)
    (hne : ws ≠ [' '])
    (hat : '@' ∉ tail2) :
    parse omBot (("@om-bot").toList ++ (ws ++ (("create-pr").toList ++ tail2))) =
      ParseOutcome.notMentioned ∧
    handleComment w omBot (("@om-bot").toList ++ (ws ++ (("create-pr").toList ++ tail2)))
      author = [] := by
  have e1 : lower (("@om-bot").toList) = ("@om-bot").toList := by decide
  have e2 : lower (("create-pr").toList) = ("create-pr").toList := by decide
  have hlb : lower (("@om-bot").toList ++ (ws ++ (("create-pr").toList ++ tail2))) =
      ("@om-bot").toList ++ (ws ++ (("create-pr").toList ++ lower tail2)) := by
    rw [lower_append, e1, lower_append, lower_of_all_jsSpace ws hws, lower_append, e2]
  have hL : '@' ∉ (("om-bot").toList ++ (ws ++ (("create-pr").toList ++ lower tail2))) := by
    intro hmem
    simp only [List.mem_append, lower, List.mem_map] at hmem
    rcases hmem with h | h | h | ⟨c, hc, hceq⟩
    · exact absurd h (by decide)
    · have hcontra := hws _ h
      rw [jsSpace_at_false] at hcontra
      exact Bool.noConfusion hcontra
    · exact absurd h (by decide)
    · exact hat (by rwa [(toLower_eq_at_iff c).mp hceq] at hc)
  have hsplit : ("@om-bot").toList ++ (ws ++ (("create-pr").toList ++ lower tail2)) =
      '@' :: (("om-bot").toList ++ (ws ++ (("create-pr").toList ++ lower tail2))) := by
    have e3 : ("@om-bot").toList = '@' :: ("om-bot").toList := by decide
    conv_lhs => rw [e3]
    rw [List.cons_append]
  have hcr : ("create-pr").toList = 'c' :: ("reate-pr").toList := by decide
  have hpre : ∀ i, (mentionPhrase omBot).isPrefixOf
      ((("@om-bot").toList ++ (ws ++ (("create-pr").toList ++ lower tail2))).drop i) =
        false := by
    intro i
    cases i with
    | zero =>
      rw [List.drop_zero]
      have hphr : mentionPhrase omBot = ("@om-bot").toList ++ ((" create-pr").toList) := by
        decide
      rw [hphr, isPrefixOf_append_same]
      have hsc : (" create-pr").toList = ' ' :: ("create-pr").toList := by decide
      rw [hsc]
      cases ws with
      | nil =>
        rw [List.nil_append, hcr, List.cons_append]
        exact isPrefixOf_cons_head_false _ _ _ _ (by decide)
      | cons c ws' =>
        by_cases hcsp : c = ' '
        · subst hcsp
          cases ws' with
          | nil => exact absurd rfl hne
          | cons d ws'' =>
            rw [List.cons_append]
            rw [show ((' ' :: ("create-pr").toList).isPrefixOf
                (' ' :: ((d :: ws'') ++ (("create-pr").toList ++ lower tail2)))) =
                (("create-pr").toList.isPrefixOf
                  ((d :: ws'') ++ (("create-pr").toList ++ lower tail2))) from by
              simp [List.isPrefixOf]]
            rw [List.cons_append, hcr]
            have hd : jsSpace d = true := hws d (by simp)
            have hdc : ('c' == d) = false := by
              apply beq_eq_false_iff_ne.mpr
              intro he
              rw [← he] at hd
              have hcf : jsSpace 'c' = false := by decide
              rw [hcf] at hd
              exact Bool.noConfusion hd
            exact isPrefixOf_cons_head_false _ _ _ _ hdc
        · rw [List.cons_append]
          exact isPrefixOf_cons_head_false _ _ _ _
            (beq_eq_false_iff_ne.mpr (fun hh => hcsp hh.symm))
    | succ j =>
      conv_lhs => rw [hsplit, List.drop_succ_cons]
      have hphr2 : mentionPhrase omBot = '@' :: (("om-bot create-pr").toList) := by decide
      rw [hphr2]
      cases hdj : (("om-bot").toList ++ (ws ++ (("create-pr").toList ++ lower tail2))).drop j
        with
      | nil => rfl
      | cons x xs =>
        have hx : x ∈ (("om-bot").toList ++ (ws ++ (("create-pr").toList ++ lower tail2))) :=
          List.drop_subset j _ (by rw [hdj]; exact List.mem_cons_self x xs)
        have hxa : x ≠ '@' := fun he => hL (he ▸ hx)
        exact isPrefixOf_cons_head_false _ _ _ _
          (beq_eq_false_iff_ne.mpr (Ne.symm hxa))
  have hidx : indexOfSub (lower (mentionPhrase omBot))
      (lower (("@om-bot").toList ++ (ws ++ (("create-pr").toList ++ tail2)))) = none := by
    rw [show lower (mentionPhrase omBot) = mentionPhrase omBot from by decide, hlb]
    exact indexOfSub_eq_none _ _ hpre
  have hp : parse omBot
      (("@om-bot").toList ++ (ws ++ (("create-pr").toList ++ tail2))) =
      ParseOutcome.notMentioned := by
    unfold parse
    rw [hidx]
  refine ⟨hp, ?_⟩
  unfold handleComment
  rw [hp]

theorem c10_single_space_required_witness :
    parse omBot (("@om-bot").toList ++ ((("  ").toList) ++ (("create-pr").toList ++
        ((" A B x").toList)))) = ParseOutcome.notMentioned ∧
    handleComment (okWorld []) omBot (("@om-bot").toList ++ ((("  ").toList) ++
        (("create-pr").toList ++ ((" A B x").toList)))) (("alice").toList) = [] :=
  c10_single_space_required (okWorld []) (("alice").toList) (("  ").toList)
    ((" A B x").toList) (by decide) (by decide) (by decide)
